import Mathlib

/-!
Verification of the Log-Analyzer repository (Go) against its natural-language
specification.  The Go source is shallowly embedded: strings become `List Char`,
`time.Time` becomes a six-field `DateTime` record ordered lexicographically
(Go's zero time, January 1 of year 1, is the record `⟨1,1,1,0,0,0⟩`), maps
become functions, and the lock-protected aggregator is modelled by the sequence
of (atomic) `Add`/`AddBatch` operations it serves.
-/

namespace LogAn

/-- Go strings restricted to the character sequences the claims exercise. -/
abbrev Str := List Char

/-- Whitespace test used by `strings.TrimSpace` (ASCII subset). -/
def isSpaceChar (c : Char) : Bool :=
  c = ' ' || c = '\t' || c = '\n' || c = '\r' || c = '\x0b' || c = '\x0c'

/-- Model of `strings.TrimSpace`: drop whitespace from both ends. -/
def trimSpace (s : Str) : Str :=
  ((s.dropWhile isSpaceChar).reverse.dropWhile isSpaceChar).reverse

/-- ASCII upper-casing of one character, as `strings.ToUpper` does on ASCII input. -/
def upChar (c : Char) : Char :=
  if 'a' ≤ c ∧ c ≤ 'z' then Char.ofNat (c.toNat - 32) else c

/-- Model of `strings.ToUpper` on ASCII strings. -/
def toUpperGo (s : Str) : Str := s.map upChar

/-- Model of `time.Time` at second precision: the fields Go's wall-clock
formats expose.  Ordered lexicographically; Go's zero time is `dtZero`. -/
structure DateTime where
  year : Nat
  month : Nat
  day : Nat
  hour : Nat
  minute : Nat
  second : Nat
deriving DecidableEq

/-- Go's zero `time.Time`: January 1, year 1, 00:00:00. -/
def dtZero : DateTime := ⟨1, 1, 1, 0, 0, 0⟩

/-- Model of `time.Time.IsZero`. -/
def dtIsZero (a : DateTime) : Bool := a = dtZero

/-- Model of `time.Time.Before`: strict lexicographic order on the fields. -/
def dtLt (a b : DateTime) : Bool :=
  a.year < b.year ||
  (a.year = b.year && (a.month < b.month ||
    (a.month = b.month && (a.day < b.day ||
      (a.day = b.day && (a.hour < b.hour ||
        (a.hour = b.hour && (a.minute < b.minute ||
          (a.minute = b.minute && a.second < b.second)))))))))

lemma dtLt_iff (a b : DateTime) : dtLt a b = true ↔
    (a.year < b.year ∨ (a.year = b.year ∧ (a.month < b.month ∨
      (a.month = b.month ∧ (a.day < b.day ∨
        (a.day = b.day ∧ (a.hour < b.hour ∨
          (a.hour = b.hour ∧ (a.minute < b.minute ∨
            (a.minute = b.minute ∧ a.second < b.second)))))))))) := by
  simp [dtLt]

lemma dtLt_irrefl (a : DateTime) : dtLt a a = false := by
  have h : ¬ dtLt a a = true := by
    rw [dtLt_iff]; omega
  simpa using h

lemma dtLt_trans {a b c : DateTime} (h₁ : dtLt a b = true) (h₂ : dtLt b c = true) :
    dtLt a c = true := by
  rw [dtLt_iff] at h₁ h₂ ⊢
  omega

lemma dtLt_asymm {a b : DateTime} (h : dtLt a b = true) : dtLt b a = false := by
  have h' : ¬ dtLt b a = true := by
    rw [dtLt_iff] at h ⊢; omega
  simpa using h'

lemma dt_eq_of_not_lt {a b : DateTime} (h₁ : dtLt a b = false) (h₂ : dtLt b a = false) :
    a = b := by
  have h₁' : ¬ dtLt a b = true := by simp [h₁]
  have h₂' : ¬ dtLt b a = true := by simp [h₂]
  rw [dtLt_iff] at h₁' h₂'
  cases a; cases b
  dsimp only at h₁' h₂'
  simp only [DateTime.mk.injEq]
  omega

lemma dtLt_total (a b : DateTime) : dtLt a b = true ∨ dtLt b a = true ∨ a = b := by
  by_cases h₁ : dtLt a b = true
  · exact Or.inl h₁
  · by_cases h₂ : dtLt b a = true
    · exact Or.inr (Or.inl h₂)
    · exact Or.inr (Or.inr (dt_eq_of_not_lt (by simpa using h₁) (by simpa using h₂)))

/-- The severity enumeration of `internal/models/log.go`. -/
inductive LogLevel where
  | DEBUG | INFO | WARN | ERROR | FATAL | UNKNOWN
deriving DecidableEq

/-- The numeric value of each level constant (`iota` order in the source). -/
def levelNum : LogLevel → Nat
  | .DEBUG => 0
  | .INFO => 1
  | .WARN => 2
  | .ERROR => 3
  | .FATAL => 4
  | .UNKNOWN => 5

/-- The `<` comparison Go performs on `LogLevel` values (integer order). -/
def lvLt (a b : LogLevel) : Bool := levelNum a < levelNum b

/-- Model of `models.ParseLogLevel`: the switch on the level text. -/
def parseLogLevel (s : Str) : LogLevel :=
  if s = ("DEBUG").toList then .DEBUG
  else if s = ("INFO").toList then .INFO
  else if s = ("WARN").toList ∨ s = ("WARNING").toList then .WARN
  else if s = ("ERROR").toList then .ERROR
  else if s = ("FATAL").toList then .FATAL
  else .UNKNOWN

/-- Model of `models.LogEntry`. -/
structure LogEntry where
  timestamp : DateTime
  level : LogLevel
  message : Str
  source : Str
  raw : Str
deriving DecidableEq

/-- Model of the helper `findSubstring` in `internal/models/log.go`: scan every
offset `0 ≤ i ≤ len(s) - len(sub)` for an exact slice match. -/
def findSubstring (s sub : Str) : Bool :=
  (List.range (s.length - sub.length + 1)).any
    (fun i => decide ((s.drop i).take sub.length = sub))

/-- Model of the helper `contains` in `internal/models/log.go`. -/
def containsGo (s sub : Str) : Bool :=
  decide (sub.length ≤ s.length) && (decide (s = sub) || findSubstring s sub)

/-- Model of `LogEntry.MatchesPattern`: empty pattern always matches, otherwise
substring containment in the message or in the raw line. -/
def matchesPattern (e : LogEntry) (pattern : Str) : Bool :=
  if pattern = [] then true
  else containsGo e.message pattern || containsGo e.raw pattern

/-- The specification-side notion of substring occurrence: `sub` appears
contiguously inside `s`. -/
def occursIn (sub s : Str) : Prop := ∃ t u, s = t ++ sub ++ u

/-- Model of `models.Statistics` (the lock itself is modelled by treating each
update as atomic; the mutex field has no data content). -/
structure Stats where
  totalEntries : Nat
  levelCounts : LogLevel → Nat
  sourceCounts : Str → Nat
  firstTimestamp : DateTime
  lastTimestamp : DateTime
  filesProcessed : Nat
  bytesProcessed : Nat

/-- Model of `models.NewStatistics`: empty maps, zero counters, zero times. -/
def newStats : Stats :=
  { totalEntries := 0
    levelCounts := fun _ => 0
    sourceCounts := fun _ => 0
    firstTimestamp := dtZero
    lastTimestamp := dtZero
    filesProcessed := 0
    bytesProcessed := 0 }

/-- Model of `Statistics.AddEntry`: increment total and the level/source
counters, then extend the `[First, Last]` range using the `IsZero` sentinel
for `FirstTimestamp`. -/
def addEntry (s : Stats) (e : LogEntry) : Stats :=
  { s with
    totalEntries := s.totalEntries + 1
    levelCounts := fun l => if l = e.level then s.levelCounts l + 1 else s.levelCounts l
    sourceCounts := fun src => if src = e.source then s.sourceCounts src + 1 else s.sourceCounts src
    firstTimestamp :=
      if dtIsZero s.firstTimestamp || dtLt e.timestamp s.firstTimestamp
      then e.timestamp else s.firstTimestamp
    lastTimestamp :=
      if dtLt s.lastTimestamp e.timestamp then e.timestamp else s.lastTimestamp }

/-- Model of `Statistics.AddFile`: bump the file counter and the byte total. -/
def addFileStats (s : Stats) (size : Nat) : Stats :=
  { s with filesProcessed := s.filesProcessed + 1
           bytesProcessed := s.bytesProcessed + size }

/-- Model of `analyzer.Aggregator`: the record slice plus the statistics. -/
structure Agg where
  entries : List LogEntry
  stats : Stats

/-- Model of `analyzer.NewAggregator`. -/
def newAgg : Agg := { entries := [], stats := newStats }

/-- One iteration of the loop body shared by `Aggregator.Add` and
`Aggregator.AddBatch`: append the entry and update the statistics. -/
def aggStep (a : Agg) (e : LogEntry) : Agg :=
  { entries := a.entries ++ [e], stats := addEntry a.stats e }

/-- Model of `Aggregator.AddBatch` (and `Add` with a singleton list): the body
runs under the aggregator mutex, so it is one atomic step. -/
def addBatch (a : Agg) (es : List LogEntry) : Agg :=
  es.foldl aggStep a

/-- A complete serialised history of `Add`/`AddBatch` calls on a fresh
aggregator.  Because every call holds the single mutex for its whole body, any
concurrent execution by any number of contributors is equivalent to some such
sequence of batches. -/
def runBatches (bs : List (List LogEntry)) : Agg :=
  bs.foldl addBatch newAgg

/-- Numeric value of a decimal digit character, if it is one. -/
def digitVal (c : Char) : Option Nat :=
  if '0' ≤ c ∧ c ≤ '9' then some (c.toNat - 48) else none

/-- Read exactly `k` decimal digits from the front of `s` (most significant
first), returning the value and the remainder. -/
def readDigits (acc : Nat) : Nat → Str → Option (Nat × Str)
  | 0, s => some (acc, s)
  | _ + 1, [] => none
  | k + 1, c :: rest =>
    match digitVal c with
    | none => none
    | some d => readDigits (acc * 10 + d) k rest

/-- Consume one expected character. -/
def expectChar (c : Char) : Str → Option Str
  | [] => none
  | x :: rest => if x = c then some rest else none

/-- Day count of a month, with Gregorian leap years, as `time.Parse` validates. -/
def daysInMonth (year month : Nat) : Nat :=
  if month = 2 then
    (if year % 4 = 0 ∧ (year % 100 ≠ 0 ∨ year % 400 = 0) then 29 else 28)
  else if month = 4 ∨ month = 6 ∨ month = 9 ∨ month = 11 then 30 else 31

/-- Parse a `YYYYsMMsDDmHH:MM:SS` prefix (date separator `sd`, middle
separator `sm`) with the field-range validation `time.Parse` performs,
returning the remainder of the input. -/
def parseDT (sd sm : Char) (s : Str) : Option (DateTime × Str) := do
  let (y, s1) ← readDigits 0 4 s
  let s2 ← expectChar sd s1
  let (mo, s3) ← readDigits 0 2 s2
  let s4 ← expectChar sd s3
  let (d, s5) ← readDigits 0 2 s4
  let s6 ← expectChar sm s5
  let (h, s7) ← readDigits 0 2 s6
  let s8 ← expectChar ':' s7
  let (mi, s9) ← readDigits 0 2 s8
  let s10 ← expectChar ':' s9
  let (sec, s11) ← readDigits 0 2 s10
  if 1 ≤ mo ∧ mo ≤ 12 ∧ 1 ≤ d ∧ d ≤ daysInMonth y mo ∧ h ≤ 23 ∧ mi ≤ 59 ∧ sec ≤ 59
  then pure (⟨y, mo, d, h, mi, sec⟩, s11) else none

/-- Parse with one of the zoneless 19-character layouts; the whole input must
be consumed, as `time.Parse` requires. -/
def parseDTFull (sd sm : Char) (s : Str) : Option DateTime :=
  match parseDT sd sm s with
  | some (t, []) => some t
  | _ => none

/-- Parse an RFC 3339 zone suffix: `Z` or `±HH:MM`. -/
def parseZone (s : Str) : Option Str :=
  match s with
  | 'Z' :: rest => some rest
  | c :: rest =>
    if c = '+' ∨ c = '-' then do
      let (_, s1) ← readDigits 0 2 rest
      let s2 ← expectChar ':' s1
      let (_, s3) ← readDigits 0 2 s2
      pure s3
    else none
  | [] => none

/-- Model of `time.Parse` with layout `time.RFC3339` (zone required; the
clock fields are kept as written). -/
def rfc3339Parse (s : Str) : Option DateTime := do
  let (t, rest) ← parseDT '-' 'T' s
  let rest2 ← parseZone rest
  if rest2 = [] then pure t else none

/-- Model of `time.Parse` with layout `time.RFC3339Nano`: an optional
fractional-second part before the mandatory zone. -/
def rfc3339NanoParse (s : Str) : Option DateTime := do
  let (t, rest) ← parseDT '-' 'T' s
  let rest1 ←
    match rest with
    | '.' :: r =>
      let ds := r.takeWhile (fun c => decide ('0' ≤ c ∧ c ≤ '9'))
      if ds = [] then none
      else some (r.dropWhile (fun c => decide ('0' ≤ c ∧ c ≤ '9')))
    | r => some r
  let rest2 ← parseZone rest1
  if rest2 = [] then pure t else none

/-- Model of `parser.parseTimestamp` in `internal/parser/json.go`: try the five
layouts in the source's order. -/
def parseTimestampMulti (s : Str) : Option DateTime :=
  rfc3339Parse s <|> rfc3339NanoParse s <|>
  parseDTFull '-' 'T' s <|> parseDTFull '-' ' ' s <|> parseDTFull '/' ' ' s

/-- Parse one JSON string literal (no escape sequences; a backslash or an
unterminated literal is a failure). -/
def jStrBody : Str → Option (Str × Str)
  | [] => none
  | '"' :: rest => some ([], rest)
  | '\\' :: _ => none
  | c :: rest => do
    let (v, r) ← jStrBody rest
    pure (c :: v, r)

/-- Parse a JSON string literal starting at the opening quote. -/
def parseJStr : Str → Option (Str × Str)
  | '"' :: rest => jStrBody rest
  | _ => none

/-- Parse `"key":"value"` pairs up to and including the closing brace. -/
def jPairs : Nat → Str → Option (List (Str × Str) × Str)
  | 0, _ => none
  | fuel + 1, s => do
    let (k, s1) ← parseJStr s
    let s2 ← expectChar ':' s1
    let (v, s3) ← parseJStr s2
    match s3 with
    | ',' :: rest => do
      let (ps, r) ← jPairs fuel rest
      pure ((k, v) :: ps, r)
    | '}' :: rest => pure ([(k, v)], rest)
    | _ => none

/-- Model of `json.Unmarshal` into the `jsonLogEntry` struct, restricted to
flat JSON objects whose keys and values are escape-free string literals with
no interior whitespace around the punctuation — the shape every structured
line of the claims takes.  Anything else is rejected, as `Unmarshal` rejects
the malformed structured lines the claims use. -/
def jsonUnmarshalFlat (s : Str) : Option (List (Str × Str)) :=
  match s with
  | '{' :: rest =>
    match rest with
    | '}' :: r => if r = [] then some [] else none
    | _ =>
      match jPairs (rest.length + 1) rest with
      | some (ps, r) => if r = [] then some ps else none
      | none => none
  | _ => none

/-- Field lookup in the unmarshalled object: Go keeps the last occurrence of a
duplicated key, and a missing field leaves the struct field empty. -/
def getField (ps : List (Str × Str)) (k : Str) : Str :=
  (((ps.filter (fun p => p.1 = k)).getLast?).map (fun p => p.2)).getD []

/-- Model of `JSONLogParser.CanParse`: nonempty after trimming, and the
trimmed line starts with `{` and ends with `}`. -/
def jsonCanParse (line : Str) : Bool :=
  let t := trimSpace line
  decide (t ≠ []) && decide (t.head? = some '{') && decide (t.getLast? = some '}')

/-- Model of `JSONLogParser.Parse`: reject blank lines, unmarshal, pick the
`timestamp`/`time` and `message`/`msg` fields with fallback, parse the
timestamp with fallback to the current time, and map the upper-cased level. -/
def jsonParse (now : DateTime) (line source : Str) : Option LogEntry :=
  if trimSpace line = [] then none
  else
    match jsonUnmarshalFlat line with
    | none => none
    | some ps =>
      let tsStr := if getField ps (("timestamp").toList) = []
                   then getField ps (("time").toList)
                   else getField ps (("timestamp").toList)
      let ts := (parseTimestampMulti tsStr).getD now
      let msg := if getField ps (("message").toList) = []
                 then getField ps (("msg").toList)
                 else getField ps (("message").toList)
      some { timestamp := ts
             level := parseLogLevel (toUpperGo (getField ps (("level").toList)))
             message := msg
             source := source
             raw := line }

/-- Model of `strings.HasPrefix pre s` (argument order: pattern first). -/
def strHasPre (pre s : Str) : Bool := decide (s.take pre.length = pre)

/-- Model of `strings.Contains`. -/
def strContains (s sub : Str) : Bool := findSubstring s sub

/-- Model of `extractTimestamp` in `internal/parser/plain.go`: trim, strip an
optional leading bracket, try the three fixed 19-character layouts in order,
then strip an optional closing bracket and trim the remainder. -/
def extractTimestamp (line : Str) : Option (DateTime × Str) :=
  let l := trimSpace line
  let hasBracket := strHasPre (("[").toList) l
  let l2 := if hasBracket then l.drop 1 else l
  let tryFmt := fun (sd sm : Char) =>
    if 19 ≤ l2.length then
      match parseDTFull sd sm (l2.take 19) with
      | some t =>
        let rest := l2.drop 19
        let rest2 := if hasBracket && strHasPre (("]").toList) rest
                     then rest.drop 1 else rest
        some (t, trimSpace rest2)
      | none => none
    else none
  (tryFmt '-' ' ') <|> (tryFmt '/' ' ') <|> (tryFmt '-' 'T')

/-- Model of `extractLevelAndMessage` in `internal/parser/plain.go`: look for a
level keyword as an upper-cased line head with joiner `:`, ` -` or ` `; failing
that, for the keyword anywhere in the line; failing that, default to INFO. -/
def extractLevelAndMessage (line : Str) : LogLevel × Str :=
  let l := trimSpace line
  let levels : List Str :=
    [("FATAL").toList, ("ERROR").toList, ("WARN").toList,
     ("WARNING").toList, ("INFO").toList, ("DEBUG").toList]
  let patsOf := fun (lvl : Str) =>
    [lvl ++ (":").toList, lvl ++ (" -").toList, lvl ++ (" ").toList]
  match levels.findSome? (fun lvl => (patsOf lvl).findSome? (fun pat =>
      if strHasPre pat (toUpperGo l)
      then some (parseLogLevel lvl, trimSpace (l.drop pat.length))
      else none)) with
  | some r => r
  | none =>
    match levels.findSome? (fun lvl =>
        if strContains (toUpperGo l) lvl then some (parseLogLevel lvl, l) else none) with
    | some r => r
    | none => (.INFO, l)

/-- Model of `PlainTextLogParser.Parse`: blank lines fail; otherwise extract a
timestamp (falling back to the current time and the whole line) and then the
level and message. -/
def plainParse (now : DateTime) (line source : Str) : Option LogEntry :=
  if trimSpace line = [] then none
  else
    let tr := extractTimestamp line
    let ts := match tr with | some (t, _) => t | none => now
    let rest := match tr with | some (_, r) => r | none => line
    let lm := extractLevelAndMessage rest
    some { timestamp := ts, level := lm.1, message := trimSpace lm.2
           source := source, raw := line }

/-- Model of `PlainTextLogParser.CanParse`: the line is nonempty after
trimming whitespace. -/
def plainCanParse (line : Str) : Bool :=
  decide (0 < (trimSpace line).length)

/-- The two parser strategies of `internal/parser`. -/
inductive ParserKind where
  | json
  | plain
deriving DecidableEq

/-- Model of `parser.DetectParser`: the structured parser if its `CanParse`
accepts the trimmed line, else the free-text fallback. -/
def detectKind (line : Str) : ParserKind :=
  if jsonCanParse line then .json else .plain

/-- Dispatch `Parse` through the chosen strategy. -/
def parseWith : ParserKind → DateTime → Str → Str → Option LogEntry
  | .json, now, line, src => jsonParse now line src
  | .plain, now, line, src => plainParse now line src

/-- Model of `analyzer.Config`: the fields the analysis logic reads.  The Go
zero values mark a filter as unset: `UNKNOWN` for the level, the empty string
for the pattern, the zero time for the window bounds. -/
structure Config where
  level : LogLevel
  pattern : Str
  startTime : DateTime
  endTime : DateTime
  autoDetect : Bool
  parserKind : ParserKind

/-- Model of `Analyzer.shouldInclude`: the four early-return filter checks. -/
def shouldInclude (cfg : Config) (e : LogEntry) : Bool :=
  if cfg.level ≠ LogLevel.UNKNOWN ∧ lvLt e.level cfg.level = true then false
  else if cfg.pattern ≠ [] ∧ matchesPattern e cfg.pattern = false then false
  else if dtIsZero cfg.startTime = false ∧ dtLt e.timestamp cfg.startTime = true then false
  else if dtIsZero cfg.endTime = false ∧ dtLt cfg.endTime e.timestamp = true then false
  else true

/-- Model of `filepath.Base` (no Windows volumes): last path element, with
trailing separators removed; `.` for empty input, `/` for all-separator input. -/
def baseName (p : Str) : Str :=
  if p = [] then (".").toList
  else
    let q := (p.reverse.dropWhile (fun c => c = '/')).reverse
    if q = [] then ("/").toList
    else (q.reverse.takeWhile (fun c => c ≠ '/')).reverse

/-- The parser `AnalyzeFile` uses for one line: per-line auto-detection when
`AutoDetect` is set (the analyzer's parser field is nil), else the configured
fixed parser from `parser.GetParser`. -/
def parserFor (cfg : Config) (line : Str) : ParserKind :=
  if cfg.autoDetect then detectKind line else cfg.parserKind

/-- The fate of one scanned line in `Analyzer.AnalyzeFile`: skip the empty
line, parse with the detected parser (skipping on failure), then keep the
entry only if the filters pass.  `none` means the line contributes nothing. -/
def perLine (cfg : Config) (now : DateTime) (fileName : Str) (line : Str) :
    Option LogEntry :=
  if line = [] then none
  else
    match parseWith (parserFor cfg line) now line (baseName fileName) with
    | none => none
    | some e => if shouldInclude cfg e then some e else none

/-- One loop iteration of `AnalyzeFile`: the local batch buffer plus the
aggregator, flushing the buffer through `AddBatch` at 1000 entries. -/
def analyzeStep (cfg : Config) (now : DateTime) (fileName : Str)
    (st : List LogEntry × Agg) (line : Str) : List LogEntry × Agg :=
  match perLine cfg now fileName line with
  | none => st
  | some e =>
    let buf := st.1 ++ [e]
    if 1000 ≤ buf.length then ([], addBatch st.2 buf) else (buf, st.2)

/-- Possible analysis errors surfaced by the analyzer entry points (I/O
failures are outside the embedded line semantics). -/
inductive AnalyzeErr where
  | noLogFilesFound
deriving DecidableEq

/-- Model of `Analyzer.AnalyzeFile` on a file's scanned lines: run the loop,
flush the remaining buffer, then record the file's byte size via `AddFile`.
Parse failures only ever `continue` the loop, so the embedded function has no
error outcome. -/
def analyzeFile (cfg : Config) (now : DateTime) (fileName : Str)
    (lines : List Str) (size : Nat) (agg : Agg) : Agg :=
  let st := lines.foldl (analyzeStep cfg now fileName) ([], agg)
  let a2 := if st.1 = [] then st.2 else addBatch st.2 st.1
  { a2 with stats := addFileStats a2.stats size }

/-- `AnalyzeFile` with its error channel: the loop body never produces an
error (failed lines are skipped), so the result is always `ok`. -/
def analyzeFileE (cfg : Config) (now : DateTime) (fileName : Str)
    (lines : List Str) (size : Nat) (agg : Agg) : Except AnalyzeErr Agg :=
  Except.ok (analyzeFile cfg now fileName lines size agg)

/-- One loop iteration of `AnalyzeFile` viewed as a producer of `AddBatch`
payloads: same buffering discipline, recording each flushed batch. -/
def traceStep (cfg : Config) (now : DateTime) (fileName : Str)
    (st : List LogEntry × List (List LogEntry)) (line : Str) :
    List LogEntry × List (List LogEntry) :=
  match perLine cfg now fileName line with
  | none => st
  | some e =>
    let buf := st.1 ++ [e]
    if 1000 ≤ buf.length then ([], st.2 ++ [buf]) else (buf, st.2)

/-- The sequence of `AddBatch` calls one `AnalyzeFile` run issues for a file:
full batches of 1000 in order, then the remainder if nonempty. -/
def fileBatchTrace (cfg : Config) (now : DateTime) (fileName : Str)
    (lines : List Str) : List (List LogEntry) :=
  let st := lines.foldl (traceStep cfg now fileName) ([], [])
  if st.1 = [] then st.2 else st.2 ++ [st.1]

/-- Model of `filepath.Ext`, scanning `p` from the end: the suffix from the
last dot of the final path element, empty if a separator comes first. -/
def extAux : Str → Str → Str
  | [], _ => []
  | c :: rest, acc =>
    if c = '/' then []
    else if c = '.' then '.' :: acc
    else extAux rest (c :: acc)

/-- Model of `filepath.Ext p`. -/
def filepathExt (p : Str) : Str := extAux p.reverse []

/-- Model of `findLogFiles`: the walked directory listing is a list of
(path, isDirectory) pairs; keep the non-directory paths whose extension is
`.log`, in walk order. -/
def findLogFiles (listing : List (Str × Bool)) : List Str :=
  ((listing.filter (fun f => f.2 = false ∧ filepathExt f.1 = (".log").toList)).map
    (fun f => f.1))

/-- Model of `Analyzer.AnalyzeDirectory` up to its nondeterministic parts:
enumerate the `.log` files and fail before any processing when there are none;
otherwise every worker execution runs `AnalyzeFile` per file, and the
aggregator observes some interleaving of the files' batch traces (captured by
`Interleave` below); the trailing `SortByTime` pass is captured by
`sortByTimeRel` below.  The success branch shown here is the one-worker
schedule. -/
def analyzeDirectory (cfg : Config) (now : DateTime)
    (listing : List (Str × Bool)) (contentOf : Str → List Str × Nat)
    (agg : Agg) : Option AnalyzeErr × Agg :=
  let files := findLogFiles listing
  if files = [] then (some AnalyzeErr.noLogFilesFound, agg)
  else
    (none,
     files.foldl (fun a f => analyzeFile cfg now f (contentOf f).1 (contentOf f).2 a) agg)

/-- An interleaving of several sequences: the output consumes the head of one
of the sequences at every step and preserves each sequence's internal order.
Any run of the worker pool feeds the aggregator some interleaving of the
per-file batch traces. -/
inductive Interleave {α : Type} : List (List α) → List α → Prop where
  | nil (ls : List (List α)) (h : ∀ l ∈ ls, l = []) : Interleave ls []
  | cons (ls : List (List α)) (i : Nat) (x : α) (xs : List α) (out : List α)
      (hget : ls[i]? = some (x :: xs))
      (htail : Interleave (ls.set i xs) out) : Interleave ls (x :: out)

/-- Model of `bufio.ScanLines` splitting: tokens between newlines, final
fragment included, no empty final token for a trailing newline. -/
def splitNLStep (c : Char) (acc : List Str) : List Str :=
  if c = '\n' then [] :: acc
  else
    match acc with
    | [] => [[c]]
    | l :: ls => (c :: l) :: ls

/-- Split a character stream into scanner tokens. -/
def splitNL (s : Str) : List Str := s.foldr splitNLStep []

/-- `ScanLines` drops one trailing carriage return from each token. -/
def dropCR (l : Str) : Str :=
  match l.getLast? with
  | some '\r' => l.dropLast
  | _ => l

/-- The lines `bufio.Scanner` yields for a character stream. -/
def scanLines (s : Str) : List Str := (splitNL s).map dropCR

/-- Model of the watcher's mutable read state: the open handle's position and
the `lastOffset` field. -/
structure WState where
  pos : Nat
  lastOffset : Nat
deriving DecidableEq

/-- Model of `Watcher.readNewLines`: stat the file; on truncation
(current size below the recorded offset) reset the offset to 0 and seek to the
start; scan every line from the handle position to end of file; finally store
the current size as the new offset (the handle is then also at end of file). -/
def readNewLines (content : Str) (st : WState) : List Str × WState :=
  let size := content.length
  let st1 := if size < st.lastOffset then ({ pos := 0, lastOffset := 0 } : WState) else st
  let out := scanLines (content.drop st1.pos)
  (out, { pos := size, lastOffset := size })

/-- The pairwise comparison `SortByTime` hands to `sort.Slice`:
`entries[i].Timestamp.Before(entries[j].Timestamp)`. -/
def entryLt (a b : LogEntry) : Bool := dtLt a.timestamp b.timestamp

/-- A record sequence is non-decreasing by timestamp: no later element is
strictly before an earlier one. -/
def sortedByTs (l : List LogEntry) : Prop :=
  List.Pairwise (fun a b => entryLt b a = false) l

instance (l : List LogEntry) : Decidable (sortedByTs l) := by
  unfold sortedByTs; infer_instance

/-- The documented contract of Go's `sort.Slice` for the comparison above:
the result is a permutation of the input ordered by the comparison; the
library explicitly does not guarantee stability. -/
def sortSliceSpec (xs ys : List LogEntry) : Prop :=
  ys.Perm xs ∧ sortedByTs ys

/-- Model of `Aggregator.SortByTime` as the relation `sort.Slice` guarantees:
the entry slice is replaced by a sorted permutation; the statistics are
untouched. -/
def sortByTimeRel (a a' : Agg) : Prop :=
  a'.stats = a.stats ∧ sortSliceSpec a.entries a'.entries

/-- Stable insertion into a sorted-by-timestamp list: the new element goes
before the first strictly later element, hence after all its ties. -/
def insertTs (e : LogEntry) : List LogEntry → List LogEntry
  | [] => [e]
  | x :: xs =>
    if entryLt x e then x :: insertTs e xs else e :: x :: xs

/-- The stable ascending sort by timestamp the spec describes for
`sortByTimestamp`: written from the spec's words, to compare with the
`sort.Slice` contract the source actually relies on. -/
def stableSortByTs : List LogEntry → List LogEntry
  | [] => []
  | e :: xs => insertTs e (stableSortByTs xs)

/-! ## Theorems -/

/-- C7: parsing the free-text line `[2024-01-20 15:04:05] ERROR: disk full`
succeeds for every source label and every ambient clock value, and yields
level ERROR, message `disk full`, and timestamp 2024-01-20T15:04:05. -/
theorem c7_plain_text_scenario (now : DateTime) (src : Str) :
    plainParse now (("[2024-01-20 15:04:05] ERROR: disk full").toList) src =
      some { timestamp := ⟨2024, 1, 20, 15, 4, 5⟩
             level := LogLevel.ERROR
             message := ("disk full").toList
             source := src
             raw := ("[2024-01-20 15:04:05] ERROR: disk full").toList } := by
  rfl

/-- C8 counterexample: the free-text parser's `CanParse` is not true on every
input line — it returns false on the empty line and on a whitespace-only
line. -/
theorem c8_counterexample :
    plainCanParse (("").toList) = false ∧ plainCanParse (("   ").toList) = false := by
  decide

/-- C8 amended: the free-text parser's `CanParse` returns true exactly for the
lines that are nonempty after trimming whitespace; empty and whitespace-only
lines are rejected. -/
theorem c8_amended (line : Str) :
    plainCanParse line = true ↔ trimSpace line ≠ [] := by
  simp [plainCanParse, List.length_pos]

/-- Comparing any level against UNKNOWN from below is never true: UNKNOWN is
the largest value of the severity order. -/
lemma lvLt_unknown_false (l : LogLevel) : lvLt LogLevel.UNKNOWN l = false := by
  cases l <;> rfl

/-- C10: a record whose level is the UNKNOWN sentinel is never excluded by the
minimum-level filter: UNKNOWN compares above FATAL, so `shouldInclude` treats
such a record exactly as if no minimum level were configured, for every
configuration. -/
theorem c10_unknown_level_passes (cfg : Config) (e : LogEntry)
    (h : e.level = LogLevel.UNKNOWN) :
    lvLt e.level cfg.level = false ∧
    lvLt LogLevel.FATAL LogLevel.UNKNOWN = true ∧
    shouldInclude cfg e = shouldInclude { cfg with level := LogLevel.UNKNOWN } e := by
  refine ⟨by rw [h]; exact lvLt_unknown_false _, rfl, ?_⟩
  have hf : lvLt e.level cfg.level = false := by rw [h]; exact lvLt_unknown_false _
  simp [shouldInclude, hf]

/-- Witness for C10 at a concrete configuration (minimum level FATAL) and a
concrete UNKNOWN-level record. -/
theorem c10_witness :
    lvLt (LogEntry.mk dtZero LogLevel.UNKNOWN (("m").toList) (("s").toList) (("r").toList)).level
      LogLevel.FATAL = false ∧
    lvLt LogLevel.FATAL LogLevel.UNKNOWN = true ∧
    shouldInclude
      (Config.mk LogLevel.FATAL [] dtZero dtZero true ParserKind.plain)
      (LogEntry.mk dtZero LogLevel.UNKNOWN (("m").toList) (("s").toList) (("r").toList)) =
    shouldInclude
      (Config.mk LogLevel.UNKNOWN [] dtZero dtZero true ParserKind.plain)
      (LogEntry.mk dtZero LogLevel.UNKNOWN (("m").toList) (("s").toList) (("r").toList)) := by
  exact c10_unknown_level_passes
    (Config.mk LogLevel.FATAL [] dtZero dtZero true ParserKind.plain) _ rfl

/-- C9: when the walked listing contains no `.log` files, `AnalyzeDirectory`
returns the `no log files found` error before touching any file, and the
aggregator it was given is left exactly as it was. -/
theorem c9_no_log_files (cfg : Config) (now : DateTime)
    (listing : List (Str × Bool)) (contentOf : Str → List Str × Nat) (agg : Agg)
    (h : findLogFiles listing = []) :
    analyzeDirectory cfg now listing contentOf agg =
      (some AnalyzeErr.noLogFilesFound, agg) := by
  unfold analyzeDirectory
  rw [h]
  rfl

/-- Witness for C9: a listing holding a non-log file, a directory, and a
`.log`-named directory yields zero log files, the error, and an untouched
fresh aggregator. -/
theorem c9_witness :
    findLogFiles [((("notes.txt").toList), false), ((("logs").toList), true),
      ((("old.log").toList), true)] = [] ∧
    analyzeDirectory (Config.mk LogLevel.DEBUG [] dtZero dtZero true ParserKind.plain)
      dtZero
      [((("notes.txt").toList), false), ((("logs").toList), true),
        ((("old.log").toList), true)]
      (fun _ => ([], 0)) newAgg =
      (some AnalyzeErr.noLogFilesFound, newAgg) :=
  ⟨by decide,
   c9_no_log_files _ _ _ _ _ (by decide)⟩

/-- C6: one `readNewLines` step under the watcher's handle invariant (the
handle position equals the recorded offset, as `Watch` establishes and every
step re-establishes): on truncation the read restarts at byte 0, otherwise it
continues at the recorded offset, and afterwards the stored offset and the
handle position both equal the current file size. -/
theorem c6_readNewLines (content : Str) (st : WState)
    (hinv : st.pos = st.lastOffset) :
    (readNewLines content st).1 =
      scanLines (content.drop
        (if content.length < st.lastOffset then 0 else st.lastOffset)) ∧
    (readNewLines content st).2 = ⟨content.length, content.length⟩ := by
  unfold readNewLines
  by_cases h : content.length < st.lastOffset
  · simp [h]
  · simp [h, hinv]

/-- Witness for C6, the spec's Scenario D: the watched file shrank from 500
bytes to 50, so with recorded offset 500 the next read starts at byte 0 of the
50-byte file and the offset becomes 50. -/
theorem c6_witness :
    (readNewLines (List.replicate 50 'a') ⟨500, 500⟩).1 =
      scanLines ((List.replicate 50 'a').drop
        (if (List.replicate 50 'a').length < 500 then 0 else 500)) ∧
    (readNewLines (List.replicate 50 'a') ⟨500, 500⟩).2 = ⟨50, 50⟩ :=
  c6_readNewLines (List.replicate 50 'a') ⟨500, 500⟩ rfl

/-- Unfolding of the offset scan in `findSubstring`. -/
lemma findSubstring_iff (s sub : Str) :
    findSubstring s sub = true ↔
      ∃ i, i ≤ s.length - sub.length ∧ (s.drop i).take sub.length = sub := by
  unfold findSubstring
  simp [List.any_eq_true, List.mem_range, Nat.lt_succ_iff]

/-- Substring occurrence coincides with the existence of a matching slice at
some offset within bounds. -/
lemma occursIn_iff (s sub : Str) :
    occursIn sub s ↔
      sub.length ≤ s.length ∧
        ∃ i, i ≤ s.length - sub.length ∧ (s.drop i).take sub.length = sub := by
  constructor
  · rintro ⟨t, u, rfl⟩
    refine ⟨by simp; omega, t.length, by simp; omega, ?_⟩
    calc ((t ++ sub ++ u).drop t.length).take sub.length
        = ((t ++ (sub ++ u)).drop t.length).take sub.length := by
          rw [List.append_assoc]
      _ = (sub ++ u).take sub.length := by rw [List.drop_left]
      _ = sub := List.take_left _ _
  · rintro ⟨hlen, i, hi, hslice⟩
    refine ⟨s.take i, s.drop (i + sub.length), ?_⟩
    have h1 : s.drop i = sub ++ s.drop (i + sub.length) := by
      conv_lhs => rw [← List.take_append_drop sub.length (s.drop i)]
      rw [hslice, List.drop_drop]
    calc s = s.take i ++ s.drop i := (List.take_append_drop i s).symm
      _ = s.take i ++ sub ++ s.drop (i + sub.length) := by
          rw [h1, List.append_assoc]

/-- The Go helper `contains` decides exactly substring occurrence. -/
lemma containsGo_iff (s sub : Str) : containsGo s sub = true ↔ occursIn sub s := by
  rw [occursIn_iff]
  unfold containsGo
  simp only [Bool.and_eq_true, Bool.or_eq_true, decide_eq_true_eq, findSubstring_iff]
  constructor
  · rintro ⟨hl, h⟩
    refine ⟨hl, ?_⟩
    rcases h with rfl | h
    · exact ⟨0, by omega, by simp⟩
    · exact h
  · rintro ⟨hl, h⟩
    exact ⟨hl, Or.inr h⟩

/-- Boolean normal form of the four early-return checks in `shouldInclude`. -/
lemma shouldInclude_eq (cfg : Config) (e : LogEntry) :
    shouldInclude cfg e =
      ((decide (cfg.level = LogLevel.UNKNOWN) || !lvLt e.level cfg.level) &&
       ((decide (cfg.pattern = ([] : Str))) || matchesPattern e cfg.pattern) &&
       (dtIsZero cfg.startTime || !dtLt e.timestamp cfg.startTime) &&
       (dtIsZero cfg.endTime || !dtLt cfg.endTime e.timestamp)) := by
  unfold shouldInclude
  split
  · rename_i h
    obtain ⟨ha, hb⟩ := h
    have hd : decide (cfg.level = LogLevel.UNKNOWN) = false := by simpa using ha
    simp [hd, hb]
  · rename_i h1
    have e1 : (decide (cfg.level = LogLevel.UNKNOWN) || !lvLt e.level cfg.level) = true := by
      rcases not_and_or.mp h1 with h | h
      · have hu : cfg.level = LogLevel.UNKNOWN := not_not.mp h
        simp [hu]
      · have hf : lvLt e.level cfg.level = false := by simpa using h
        simp [hf]
    split
    · rename_i h
      obtain ⟨ha, hb⟩ := h
      have hd : decide (cfg.pattern = ([] : Str)) = false := by simpa using ha
      simp [e1, hd, hb]
    · rename_i h2
      have e2 : (decide (cfg.pattern = ([] : Str)) || matchesPattern e cfg.pattern) = true := by
        rcases not_and_or.mp h2 with h | h
        · have hu : cfg.pattern = ([] : Str) := not_not.mp h
          simp [hu]
        · have ht : matchesPattern e cfg.pattern = true := by simpa using h
          simp [ht]
      split
      · rename_i h
        obtain ⟨ha, hb⟩ := h
        simp [e1, e2, ha, hb]
      · rename_i h3
        have e3 : (dtIsZero cfg.startTime || !dtLt e.timestamp cfg.startTime) = true := by
          rcases not_and_or.mp h3 with h | h
          · have ht : dtIsZero cfg.startTime = true := by simpa using h
            simp [ht]
          · have hf : dtLt e.timestamp cfg.startTime = false := by simpa using h
            simp [hf]
        split
        · rename_i h
          obtain ⟨ha, hb⟩ := h
          simp [e1, e2, e3, ha, hb]
        · rename_i h4
          have e4 : (dtIsZero cfg.endTime || !dtLt cfg.endTime e.timestamp) = true := by
            rcases not_and_or.mp h4 with h | h
            · have ht : dtIsZero cfg.endTime = true := by simpa using h
              simp [ht]
            · have hf : dtLt cfg.endTime e.timestamp = false := by simpa using h
              simp [hf]
          simp [e1, e2, e3, e4]

/-- C2: a record passes `shouldInclude` exactly when every configured filter
accepts it — no minimum level (UNKNOWN sentinel) or severity at least the
minimum, no pattern or the pattern occurring as a contiguous substring of the
message or of the raw line, no lower time bound (zero time) or the timestamp
not before it, and no upper time bound or the timestamp not after it. -/
theorem c2_shouldInclude_iff (cfg : Config) (e : LogEntry) :
    shouldInclude cfg e = true ↔
      ((cfg.level = LogLevel.UNKNOWN ∨ levelNum cfg.level ≤ levelNum e.level) ∧
       (cfg.pattern = [] ∨ occursIn cfg.pattern e.message ∨ occursIn cfg.pattern e.raw) ∧
       (cfg.startTime = dtZero ∨ dtLt e.timestamp cfg.startTime = false) ∧
       (cfg.endTime = dtZero ∨ dtLt cfg.endTime e.timestamp = false)) := by
  rw [shouldInclude_eq]
  simp only [Bool.and_eq_true, Bool.or_eq_true, decide_eq_true_eq, Bool.not_eq_true']
  have hA : (cfg.level = LogLevel.UNKNOWN ∨ lvLt e.level cfg.level = false) ↔
      (cfg.level = LogLevel.UNKNOWN ∨ levelNum cfg.level ≤ levelNum e.level) := by
    refine or_congr Iff.rfl ?_
    simp [lvLt, Nat.not_lt]
  have hB : (cfg.pattern = [] ∨ matchesPattern e cfg.pattern = true) ↔
      (cfg.pattern = [] ∨ occursIn cfg.pattern e.message ∨ occursIn cfg.pattern e.raw) := by
    by_cases hp : cfg.pattern = ([] : Str)
    · simp [hp]
    · simp [hp, matchesPattern, Bool.or_eq_true, containsGo_iff]
  have hC : (dtIsZero cfg.startTime = true ∨ dtLt e.timestamp cfg.startTime = false) ↔
      (cfg.startTime = dtZero ∨ dtLt e.timestamp cfg.startTime = false) := by
    refine or_congr ?_ Iff.rfl
    simp [dtIsZero]
  have hD : (dtIsZero cfg.endTime = true ∨ dtLt cfg.endTime e.timestamp = false) ↔
      (cfg.endTime = dtZero ∨ dtLt cfg.endTime e.timestamp = false) := by
    refine or_congr ?_ Iff.rfl
    simp [dtIsZero]
  rw [hA, hB, hC, hD, and_assoc, and_assoc]

/-! ## Aggregator bookkeeping lemmas for C1 -/

lemma addBatch_cons (a : Agg) (e : LogEntry) (es : List LogEntry) :
    addBatch a (e :: es) = addBatch (aggStep a e) es := rfl

lemma addBatch_entries (a : Agg) (es : List LogEntry) :
    (addBatch a es).entries = a.entries ++ es := by
  induction es generalizing a with
  | nil => simp [addBatch]
  | cons e es ih =>
    rw [addBatch_cons, ih]
    simp [aggStep]

lemma addBatch_stats (a : Agg) (es : List LogEntry) :
    (addBatch a es).stats = es.foldl addEntry a.stats := by
  induction es generalizing a with
  | nil => rfl
  | cons e es ih =>
    rw [addBatch_cons, ih]
    rfl

lemma addBatch_append (a : Agg) (l₁ l₂ : List LogEntry) :
    addBatch a (l₁ ++ l₂) = addBatch (addBatch a l₁) l₂ :=
  List.foldl_append aggStep a l₁ l₂

lemma runBatches_flatten (bs : List (List LogEntry)) :
    runBatches bs = addBatch newAgg bs.flatten := by
  suffices h : ∀ a, bs.foldl addBatch a = addBatch a bs.flatten from h newAgg
  induction bs with
  | nil => intro a; rfl
  | cons b bs ih =>
    intro a
    simp only [List.foldl_cons, List.flatten_cons]
    rw [ih, addBatch_append]

lemma statsFold_total (es : List LogEntry) (s : Stats) :
    (es.foldl addEntry s).totalEntries = s.totalEntries + es.length := by
  induction es generalizing s with
  | nil => simp
  | cons e es ih =>
    simp only [List.foldl_cons, ih, List.length_cons]
    simp [addEntry]
    omega

lemma statsFold_level (es : List LogEntry) (s : Stats) (l : LogLevel) :
    (es.foldl addEntry s).levelCounts l =
      s.levelCounts l + es.countP (fun e => decide (e.level = l)) := by
  induction es generalizing s with
  | nil => simp
  | cons e es ih =>
    simp only [List.foldl_cons, ih, List.countP_cons]
    by_cases h : e.level = l
    · simp [addEntry, h]
      omega
    · have h' : ¬ l = e.level := fun hc => h hc.symm
      simp [addEntry, h, h']

lemma statsFold_source (es : List LogEntry) (s : Stats) (src : Str) :
    (es.foldl addEntry s).sourceCounts src =
      s.sourceCounts src + es.countP (fun e => decide (e.source = src)) := by
  induction es generalizing s with
  | nil => simp
  | cons e es ih =>
    simp only [List.foldl_cons, ih, List.countP_cons]
    by_cases h : e.source = src
    · simp [addEntry, h]
      omega
    · have h' : ¬ src = e.source := fun hc => h hc.symm
      simp [addEntry, h, h']

/-- The closed list of all severity levels. -/
def allLevels : List LogLevel :=
  [.DEBUG, .INFO, .WARN, .ERROR, .FATAL, .UNKNOWN]

lemma countP_level_sum (es : List LogEntry) :
    (allLevels.map (fun l => es.countP (fun e => decide (e.level = l)))).sum =
      es.length := by
  induction es with
  | nil => simp [allLevels]
  | cons e es ih =>
    simp only [allLevels, List.map_cons, List.map_nil, List.sum_cons, List.sum_nil,
      List.countP_cons, List.length_cons] at ih ⊢
    cases e.level <;> simp <;> omega

lemma indicator_sum_zero (a : Str) (D : List Str) (h : a ∉ D) :
    (D.map (fun x => if a = x then (1 : Nat) else 0)).sum = 0 := by
  induction D with
  | nil => rfl
  | cons d D ih =>
    simp only [List.map_cons, List.sum_cons]
    have hne : a ≠ d := fun hc => h (hc ▸ List.mem_cons_self d D)
    rw [if_neg hne, ih (fun hc => h (List.mem_cons_of_mem d hc))]

lemma indicator_sum_one (a : Str) (D : List Str) (hn : D.Nodup) (ha : a ∈ D) :
    (D.map (fun x => if a = x then (1 : Nat) else 0)).sum = 1 := by
  induction D with
  | nil => cases ha
  | cons d D ih =>
    simp only [List.map_cons, List.sum_cons]
    rcases List.mem_cons.mp ha with rfl | ha'
    · rw [if_pos rfl, indicator_sum_zero a D (List.nodup_cons.mp hn).1]
    · have hne : a ≠ d := fun hc => ((List.nodup_cons.mp hn).1) (hc ▸ ha')
      rw [if_neg hne, ih (List.nodup_cons.mp hn).2 ha']

lemma sum_sourceCounts (es : List LogEntry) (srcs : List Str)
    (hn : srcs.Nodup) (hc : ∀ e ∈ es, e.source ∈ srcs) :
    (srcs.map (fun src => es.countP (fun e => decide (e.source = src)))).sum =
      es.length := by
  induction es with
  | nil => simp
  | cons e es ih =>
    have hcov : ∀ x ∈ es, x.source ∈ srcs :=
      fun x hx => hc x (List.mem_cons_of_mem e hx)
    have hsplit : ∀ L : List Str, (L.map (fun src =>
        (e :: es).countP (fun e' => decide (e'.source = src)))).sum =
        (L.map (fun src => es.countP (fun e' => decide (e'.source = src)))).sum +
        (L.map (fun src => if e.source = src then (1 : Nat) else 0)).sum := by
      intro L
      induction L with
      | nil => rfl
      | cons s ss ihs =>
        simp only [List.map_cons, List.sum_cons, List.countP_cons,
          decide_eq_true_eq] at ihs ⊢
        omega
    rw [hsplit srcs, ih hcov,
      indicator_sum_one e.source srcs hn (hc e (List.mem_cons_self e es))]
    rfl

lemma source_dedup_sum (es : List LogEntry) :
    (((es.map (fun e => e.source)).dedup).map
      (fun src => es.countP (fun e => decide (e.source = src)))).sum = es.length := by
  apply sum_sourceCounts
  · exact List.nodup_dedup _
  · intro e he
    exact List.mem_dedup.mpr (List.mem_map_of_mem (fun e => e.source) he)

/-! ## Timestamp range lemmas for C1 -/

/-- The binary minimum `AddEntry` computes once a first timestamp is set. -/
def dtMinB (a b : DateTime) : DateTime := if dtLt b a then b else a

/-- The binary maximum `AddEntry` computes for the last timestamp. -/
def dtMaxB (a b : DateTime) : DateTime := if dtLt a b then b else a

lemma dtNotLt_trans {a b c : DateTime}
    (h₁ : dtLt b a = false) (h₂ : dtLt c b = false) : dtLt c a = false := by
  by_contra hc
  have hca : dtLt c a = true := by
    cases h : dtLt c a
    · exact absurd h hc
    · rfl
  rcases dtLt_total a b with hab | hba | rfl
  · have := dtLt_trans hca hab
    simp [this] at h₂
  · simp [hba] at h₁
  · simp [hca] at h₂

lemma addEntry_last (s : Stats) (e : LogEntry) :
    (addEntry s e).lastTimestamp = dtMaxB s.lastTimestamp e.timestamp := rfl

lemma addEntry_first_of_ne (s : Stats) (e : LogEntry)
    (h : s.firstTimestamp ≠ dtZero) :
    (addEntry s e).firstTimestamp = dtMinB s.firstTimestamp e.timestamp := by
  simp [addEntry, dtIsZero, dtMinB, h]

lemma dtMinB_cases (a b : DateTime) : dtMinB a b = a ∨ dtMinB a b = b := by
  unfold dtMinB
  by_cases h : dtLt b a = true
  · simp [h]
  · simp [h]

lemma dtMaxB_cases (a b : DateTime) : dtMaxB a b = a ∨ dtMaxB a b = b := by
  unfold dtMaxB
  by_cases h : dtLt a b = true
  · simp [h]
  · simp [h]

lemma dtMinB_le_left (a b : DateTime) : dtLt a (dtMinB a b) = false := by
  unfold dtMinB
  by_cases h : dtLt b a = true
  · simp [h, dtLt_asymm h]
  · simp [h, dtLt_irrefl]

lemma dtMinB_le_right (a b : DateTime) : dtLt b (dtMinB a b) = false := by
  unfold dtMinB
  by_cases h : dtLt b a = true
  · simp [h, dtLt_irrefl]
  · simp only [h, if_false, Bool.false_eq_true]

lemma dtMaxB_ge_left (a b : DateTime) : dtLt (dtMaxB a b) a = false := by
  unfold dtMaxB
  by_cases h : dtLt a b = true
  · simp [h, dtLt_asymm h]
  · simp [h, dtLt_irrefl]

lemma dtMaxB_ge_right (a b : DateTime) : dtLt (dtMaxB a b) b = false := by
  unfold dtMaxB
  by_cases h : dtLt a b = true
  · simp [h, dtLt_irrefl]
  · simp only [h, if_false, Bool.false_eq_true]

lemma foldMin_le (ts : List DateTime) (t : DateTime) :
    dtLt t (ts.foldl dtMinB t) = false ∧
      ∀ x ∈ ts, dtLt x (ts.foldl dtMinB t) = false := by
  induction ts generalizing t with
  | nil => exact ⟨dtLt_irrefl t, by simp⟩
  | cons x ts ih =>
    obtain ⟨h1, h2⟩ := ih (dtMinB t x)
    refine ⟨?_, ?_⟩
    · exact dtNotLt_trans h1 (dtMinB_le_left t x)
    · intro y hy
      rcases List.mem_cons.mp hy with rfl | hy
      · exact dtNotLt_trans h1 (dtMinB_le_right t y)
      · exact h2 y hy

lemma foldMin_mem (ts : List DateTime) (t : DateTime) :
    ts.foldl dtMinB t = t ∨ ts.foldl dtMinB t ∈ ts := by
  induction ts generalizing t with
  | nil => exact Or.inl rfl
  | cons x ts ih =>
    rcases ih (dtMinB t x) with h | h
    · rcases dtMinB_cases t x with hm | hm
      · exact Or.inl (by rw [List.foldl_cons, h, hm])
      · exact Or.inr (by rw [List.foldl_cons, h, hm]; exact List.mem_cons_self x ts)
    · exact Or.inr (List.mem_cons_of_mem x h)

lemma foldMax_ge (ts : List DateTime) (t : DateTime) :
    dtLt (ts.foldl dtMaxB t) t = false ∧
      ∀ x ∈ ts, dtLt (ts.foldl dtMaxB t) x = false := by
  induction ts generalizing t with
  | nil => exact ⟨dtLt_irrefl t, by simp⟩
  | cons x ts ih =>
    obtain ⟨h1, h2⟩ := ih (dtMaxB t x)
    refine ⟨?_, ?_⟩
    · exact dtNotLt_trans (dtMaxB_ge_left t x) h1
    · intro y hy
      rcases List.mem_cons.mp hy with rfl | hy
      · exact dtNotLt_trans (dtMaxB_ge_right t y) h1
      · exact h2 y hy

lemma foldMax_mem (ts : List DateTime) (t : DateTime) :
    ts.foldl dtMaxB t = t ∨ ts.foldl dtMaxB t ∈ ts := by
  induction ts generalizing t with
  | nil => exact Or.inl rfl
  | cons x ts ih =>
    rcases ih (dtMaxB t x) with h | h
    · rcases dtMaxB_cases t x with hm | hm
      · exact Or.inl (by rw [List.foldl_cons, h, hm])
      · exact Or.inr (by rw [List.foldl_cons, h, hm]; exact List.mem_cons_self x ts)
    · exact Or.inr (List.mem_cons_of_mem x h)

lemma statsFold_last (es : List LogEntry) (s : Stats) :
    (es.foldl addEntry s).lastTimestamp =
      (es.map (fun e => e.timestamp)).foldl dtMaxB s.lastTimestamp := by
  induction es generalizing s with
  | nil => rfl
  | cons e es ih =>
    simp only [List.foldl_cons, List.map_cons, ih, addEntry_last]

lemma statsFold_first_of_ne (es : List LogEntry) (s : Stats)
    (h : s.firstTimestamp ≠ dtZero) (hts : ∀ e ∈ es, e.timestamp ≠ dtZero) :
    (es.foldl addEntry s).firstTimestamp =
      (es.map (fun e => e.timestamp)).foldl dtMinB s.firstTimestamp := by
  induction es generalizing s with
  | nil => rfl
  | cons e es ih =>
    simp only [List.foldl_cons, List.map_cons]
    rw [ih]
    · rw [addEntry_first_of_ne s e h]
    · rw [addEntry_first_of_ne s e h]
      rcases dtMinB_cases s.firstTimestamp e.timestamp with hm | hm
      · rw [hm]; exact h
      · rw [hm]; exact hts e (List.mem_cons_self e es)
    · intro x hx
      exact hts x (List.mem_cons_of_mem e hx)

lemma dtZero_lt_ne {t : DateTime} (h : dtLt dtZero t = true) : t ≠ dtZero := by
  intro hz
  rw [hz, dtLt_irrefl] at h
  exact absurd h (by simp)

/-- C1 counterexample: after adding an entry carrying Go's zero timestamp (the
`IsZero` sentinel, reachable e.g. from the line
`[0001-01-01 00:00:00] ERROR: x`) and then an entry timestamped 2024, the
recorded `FirstTimestamp` is the 2024 instant even though the zero-timestamped
entry it holds is strictly earlier — `FirstTimestamp` is not the minimum over
all added entries. -/
theorem c1_counterexample :
    (LogEntry.mk dtZero LogLevel.ERROR (("x").toList) (("s").toList) (("r").toList)) ∈
      (runBatches [[LogEntry.mk dtZero LogLevel.ERROR (("x").toList) (("s").toList) (("r").toList)],
        [LogEntry.mk ⟨2024, 1, 1, 0, 0, 0⟩ LogLevel.INFO (("y").toList) (("s").toList) (("r").toList)]]).entries ∧
    dtLt dtZero
      (runBatches [[LogEntry.mk dtZero LogLevel.ERROR (("x").toList) (("s").toList) (("r").toList)],
        [LogEntry.mk ⟨2024, 1, 1, 0, 0, 0⟩ LogLevel.INFO (("y").toList) (("s").toList) (("r").toList)]]).stats.firstTimestamp = true := by
  constructor
  · decide
  · decide

/-- C1 amended: for every serialised history of `Add`/`AddBatch` calls on a
fresh aggregator (any concurrent execution is such a history, each call being
atomic under the mutex), the held entries are exactly the added ones in call
order; `TotalEntries` equals the number of added entries and equals the sum of
all `LevelCounts` values and the sum of all `SourceCounts` values;
`LevelCounts[l]` counts exactly the entries of level `l` and `SourceCounts[s]`
those of source `s`; and — provided at least one entry was added and no added
entry carries Go's zero-time sentinel or an earlier instant —
`FirstTimestamp` is the minimum and `LastTimestamp` the maximum added
timestamp. -/
theorem c1_amended (bs : List (List LogEntry)) :
    (runBatches bs).entries = bs.flatten ∧
    (runBatches bs).stats.totalEntries = bs.flatten.length ∧
    (∀ l, (runBatches bs).stats.levelCounts l =
      bs.flatten.countP (fun e => decide (e.level = l))) ∧
    (∀ src, (runBatches bs).stats.sourceCounts src =
      bs.flatten.countP (fun e => decide (e.source = src))) ∧
    (allLevels.map (runBatches bs).stats.levelCounts).sum =
      (runBatches bs).stats.totalEntries ∧
    (((bs.flatten.map (fun e => e.source)).dedup).map
      (runBatches bs).stats.sourceCounts).sum = (runBatches bs).stats.totalEntries ∧
    (bs.flatten ≠ [] → (∀ e ∈ bs.flatten, dtLt dtZero e.timestamp = true) →
      ((runBatches bs).stats.firstTimestamp ∈ bs.flatten.map (fun e => e.timestamp) ∧
       (∀ e ∈ bs.flatten, dtLt e.timestamp (runBatches bs).stats.firstTimestamp = false) ∧
       (runBatches bs).stats.lastTimestamp ∈ bs.flatten.map (fun e => e.timestamp) ∧
       (∀ e ∈ bs.flatten, dtLt (runBatches bs).stats.lastTimestamp e.timestamp = false))) := by
  have hE : (runBatches bs).entries = bs.flatten := by
    rw [runBatches_flatten, addBatch_entries]
    rfl
  have hS : (runBatches bs).stats = bs.flatten.foldl addEntry newStats := by
    rw [runBatches_flatten, addBatch_stats]
    rfl
  have hT : (runBatches bs).stats.totalEntries = bs.flatten.length := by
    rw [hS, statsFold_total]
    simp [newStats]
  have hL : ∀ l, (runBatches bs).stats.levelCounts l =
      bs.flatten.countP (fun e => decide (e.level = l)) := by
    intro l
    rw [hS, statsFold_level]
    simp [newStats]
  have hSrc : ∀ src, (runBatches bs).stats.sourceCounts src =
      bs.flatten.countP (fun e => decide (e.source = src)) := by
    intro src
    rw [hS, statsFold_source]
    simp [newStats]
  refine ⟨hE, hT, hL, hSrc, ?_, ?_, ?_⟩
  · rw [hT]
    have hmap : allLevels.map (runBatches bs).stats.levelCounts =
        allLevels.map (fun l => bs.flatten.countP (fun e => decide (e.level = l))) := by
      apply List.map_congr_left
      intro l _
      exact hL l
    rw [hmap, countP_level_sum]
  · rw [hT]
    have hmap : ((bs.flatten.map (fun e => e.source)).dedup).map
        (runBatches bs).stats.sourceCounts =
        ((bs.flatten.map (fun e => e.source)).dedup).map
        (fun src => bs.flatten.countP (fun e => decide (e.source = src))) := by
      apply List.map_congr_left
      intro src _
      exact hSrc src
    rw [hmap, source_dedup_sum]
  · intro hne hpos
    obtain ⟨e1, rest, hcons⟩ := List.exists_cons_of_ne_nil hne
    have hpos' : ∀ e ∈ bs.flatten, e.timestamp ≠ dtZero := fun e he =>
      dtZero_lt_ne (hpos e he)
    have hfirst1 : (addEntry newStats e1).firstTimestamp = e1.timestamp := by
      simp [addEntry, newStats, dtIsZero]
    have hfirstne : (addEntry newStats e1).firstTimestamp ≠ dtZero := by
      rw [hfirst1]
      exact hpos' e1 (by rw [hcons]; exact List.mem_cons_self e1 rest)
    have hrestne : ∀ e ∈ rest, e.timestamp ≠ dtZero := by
      intro e he
      exact hpos' e (by rw [hcons]; exact List.mem_cons_of_mem e1 he)
    have hF : (runBatches bs).stats.firstTimestamp =
        (rest.map (fun e => e.timestamp)).foldl dtMinB e1.timestamp := by
      rw [hS, hcons, List.foldl_cons, statsFold_first_of_ne rest _ hfirstne hrestne,
        hfirst1]
    have hLa : (runBatches bs).stats.lastTimestamp =
        (bs.flatten.map (fun e => e.timestamp)).foldl dtMaxB dtZero := by
      rw [hS, statsFold_last]
      rfl
    refine ⟨?_, ?_, ?_, ?_⟩
    · rw [hF, hcons]
      rcases foldMin_mem (rest.map (fun e => e.timestamp)) e1.timestamp with h | h
      · rw [h]
        simp
      · simp only [List.map_cons, List.mem_cons]
        exact Or.inr h
    · intro e he
      obtain ⟨hb, hall⟩ := foldMin_le (rest.map (fun e => e.timestamp)) e1.timestamp
      rw [hF]
      rw [hcons] at he
      rcases List.mem_cons.mp he with rfl | he
      · exact hb
      · exact hall e.timestamp (List.mem_map_of_mem (fun e => e.timestamp) he)
    · rw [hLa]
      rcases foldMax_mem (bs.flatten.map (fun e => e.timestamp)) dtZero with h | h
      · exfalso
        obtain ⟨_, hall⟩ := foldMax_ge (bs.flatten.map (fun e => e.timestamp)) dtZero
        have h1 := hall e1.timestamp (by
          rw [hcons]
          exact List.mem_map_of_mem (fun e => e.timestamp)
            (List.mem_cons_self e1 rest))
        rw [h] at h1
        have h2 := hpos e1 (by rw [hcons]; exact List.mem_cons_self e1 rest)
        rw [h1] at h2
        exact absurd h2 (by simp)
      · exact h
    · intro e he
      obtain ⟨_, hall⟩ := foldMax_ge (bs.flatten.map (fun e => e.timestamp)) dtZero
      rw [hLa]
      exact hall e.timestamp (List.mem_map_of_mem (fun e => e.timestamp) he)

/-- Witness for C1 at a concrete two-batch history with positive timestamps:
the hypotheses of the range clause hold and the minimum/maximum conclusions
follow by applying the theorem. -/
theorem c1_witness :
    ([[LogEntry.mk ⟨2024, 1, 2, 3, 4, 5⟩ LogLevel.INFO (("a").toList) (("s1").toList) (("ra").toList)],
      [LogEntry.mk ⟨2023, 5, 6, 7, 8, 9⟩ LogLevel.ERROR (("b").toList) (("s2").toList) (("rb").toList)]] : List (List LogEntry)).flatten ≠ [] ∧
    (∀ e ∈ ([[LogEntry.mk ⟨2024, 1, 2, 3, 4, 5⟩ LogLevel.INFO (("a").toList) (("s1").toList) (("ra").toList)],
      [LogEntry.mk ⟨2023, 5, 6, 7, 8, 9⟩ LogLevel.ERROR (("b").toList) (("s2").toList) (("rb").toList)]] : List (List LogEntry)).flatten,
      dtLt dtZero e.timestamp = true) ∧
    ((runBatches [[LogEntry.mk ⟨2024, 1, 2, 3, 4, 5⟩ LogLevel.INFO (("a").toList) (("s1").toList) (("ra").toList)],
        [LogEntry.mk ⟨2023, 5, 6, 7, 8, 9⟩ LogLevel.ERROR (("b").toList) (("s2").toList) (("rb").toList)]]).stats.firstTimestamp ∈
      ([[LogEntry.mk ⟨2024, 1, 2, 3, 4, 5⟩ LogLevel.INFO (("a").toList) (("s1").toList) (("ra").toList)],
        [LogEntry.mk ⟨2023, 5, 6, 7, 8, 9⟩ LogLevel.ERROR (("b").toList) (("s2").toList) (("rb").toList)]] : List (List LogEntry)).flatten.map (fun e => e.timestamp) ∧
     (∀ e ∈ ([[LogEntry.mk ⟨2024, 1, 2, 3, 4, 5⟩ LogLevel.INFO (("a").toList) (("s1").toList) (("ra").toList)],
        [LogEntry.mk ⟨2023, 5, 6, 7, 8, 9⟩ LogLevel.ERROR (("b").toList) (("s2").toList) (("rb").toList)]] : List (List LogEntry)).flatten,
       dtLt e.timestamp (runBatches [[LogEntry.mk ⟨2024, 1, 2, 3, 4, 5⟩ LogLevel.INFO (("a").toList) (("s1").toList) (("ra").toList)],
        [LogEntry.mk ⟨2023, 5, 6, 7, 8, 9⟩ LogLevel.ERROR (("b").toList) (("s2").toList) (("rb").toList)]]).stats.firstTimestamp = false) ∧
     (runBatches [[LogEntry.mk ⟨2024, 1, 2, 3, 4, 5⟩ LogLevel.INFO (("a").toList) (("s1").toList) (("ra").toList)],
        [LogEntry.mk ⟨2023, 5, 6, 7, 8, 9⟩ LogLevel.ERROR (("b").toList) (("s2").toList) (("rb").toList)]]).stats.lastTimestamp ∈
      ([[LogEntry.mk ⟨2024, 1, 2, 3, 4, 5⟩ LogLevel.INFO (("a").toList) (("s1").toList) (("ra").toList)],
        [LogEntry.mk ⟨2023, 5, 6, 7, 8, 9⟩ LogLevel.ERROR (("b").toList) (("s2").toList) (("rb").toList)]] : List (List LogEntry)).flatten.map (fun e => e.timestamp) ∧
     (∀ e ∈ ([[LogEntry.mk ⟨2024, 1, 2, 3, 4, 5⟩ LogLevel.INFO (("a").toList) (("s1").toList) (("ra").toList)],
        [LogEntry.mk ⟨2023, 5, 6, 7, 8, 9⟩ LogLevel.ERROR (("b").toList) (("s2").toList) (("rb").toList)]] : List (List LogEntry)).flatten,
       dtLt (runBatches [[LogEntry.mk ⟨2024, 1, 2, 3, 4, 5⟩ LogLevel.INFO (("a").toList) (("s1").toList) (("ra").toList)],
        [LogEntry.mk ⟨2023, 5, 6, 7, 8, 9⟩ LogLevel.ERROR (("b").toList) (("s2").toList) (("rb").toList)]]).stats.lastTimestamp e.timestamp = false)) :=
  ⟨by decide, by decide,
   (c1_amended _).2.2.2.2.2.2 (by decide) (by decide)⟩

/-! ## AnalyzeFile loop invariant for C4 -/

lemma analyzeFold_inv (cfg : Config) (now : DateTime) (fileName : Str) :
    ∀ (lines : List Str) (buf : List LogEntry) (agg : Agg),
      ((lines.foldl (analyzeStep cfg now fileName) (buf, agg)).2).entries ++
        (lines.foldl (analyzeStep cfg now fileName) (buf, agg)).1 =
      agg.entries ++ buf ++ lines.filterMap (perLine cfg now fileName) := by
  intro lines
  induction lines with
  | nil => intro buf agg; simp
  | cons line lines ih =>
    intro buf agg
    rw [List.foldl_cons]
    cases h : perLine cfg now fileName line with
    | none =>
      rw [List.filterMap_cons_none h]
      have hstep : analyzeStep cfg now fileName (buf, agg) line = (buf, agg) := by
        simp [analyzeStep, h]
      rw [hstep]
      exact ih buf agg
    | some e =>
      rw [List.filterMap_cons_some h]
      by_cases hlen : 1000 ≤ (buf ++ [e]).length
      · have hstep : analyzeStep cfg now fileName (buf, agg) line =
            ([], addBatch agg (buf ++ [e])) := by
          simp only [analyzeStep, h, hlen, if_pos]
        rw [hstep, ih [] (addBatch agg (buf ++ [e]))]
        rw [addBatch_entries]
        simp
      · have hstep : analyzeStep cfg now fileName (buf, agg) line =
            (buf ++ [e], agg) := by
          simp only [analyzeStep, h]
          rw [if_neg hlen]
        rw [hstep, ih (buf ++ [e]) agg]
        simp

lemma analyzeFile_entries (cfg : Config) (now : DateTime) (fileName : Str)
    (lines : List Str) (size : Nat) (agg : Agg) :
    (analyzeFile cfg now fileName lines size agg).entries =
      agg.entries ++ lines.filterMap (perLine cfg now fileName) := by
  unfold analyzeFile
  have h := analyzeFold_inv cfg now fileName lines [] agg
  by_cases hb : (lines.foldl (analyzeStep cfg now fileName) ([], agg)).1 = []
  · rw [hb] at h
    simp only [List.append_nil] at h
    simp only [hb, if_pos]
    simpa using h
  · simp only [hb, if_neg, if_false]
    rw [addBatch_entries]
    simpa using h

/-! ## Scenario A inputs for C4 (structured lines built character by character) -/

/-- The opening brace character of a structured line. -/
def lbC : Char := Char.ofNat 123

/-- The closing brace character of a structured line. -/
def rbC : Char := Char.ofNat 125

/-- The double-quote character. -/
def qC : Char := '"'

/-- One quoted `key:value` field of a structured line. -/
def jsonKV (k v : Str) : Str := [qC] ++ k ++ [qC, ':'] ++ [qC] ++ v ++ [qC]

/-- A well-formed structured log line with timestamp, level and message. -/
def jsonLine3 (ts lv msg : Str) : Str :=
  [lbC] ++ jsonKV (("timestamp").toList) ts ++ [','] ++
    jsonKV (("level").toList) lv ++ [','] ++
    jsonKV (("message").toList) msg ++ [rbC]

/-- The malformed structured line of Scenario A: brace-delimited but not valid
structured syntax. -/
def badLine : Str := [lbC] ++ ("this is not json").toList ++ [rbC]

/-- File 1 of Scenario A: three well-formed structured lines plus one
malformed structured line. -/
def fileALines : List Str :=
  [jsonLine3 (("2024-01-20T15:04:05").toList) (("INFO").toList) (("alpha").toList),
   jsonLine3 (("2024-01-20T15:04:06").toList) (("ERROR").toList) (("beta").toList),
   jsonLine3 (("2024-01-20T15:04:07").toList) (("WARN").toList) (("gamma").toList),
   badLine]

/-- File 2 of Scenario A: three well-formed structured lines. -/
def fileBLines : List Str :=
  [jsonLine3 (("2024-01-21T08:00:00").toList) (("INFO").toList) (("delta").toList),
   jsonLine3 (("2024-01-21T08:00:01").toList) (("DEBUG").toList) (("epsilon").toList),
   jsonLine3 (("2024-01-21T08:00:02").toList) (("FATAL").toList) (("zeta").toList)]

/-- The default analyze configuration: no filters, auto-detection on. -/
def cfgScenario : Config := ⟨.DEBUG, [], dtZero, dtZero, true, .plain⟩

/-- An arbitrary ambient clock instant for the scenario runs. -/
def nowScenario : DateTime := ⟨2030, 6, 1, 12, 0, 0⟩

/-- C4: lines that fail to parse are skipped without error — for every file,
`AnalyzeFile` succeeds and aggregates exactly the lines that parse and pass
the filters, in order; and in Scenario A (two files of three well-formed
structured lines each, the first file also holding one malformed structured
line) the malformed line contributes nothing, the two runs aggregate exactly
6 entries, not 7, and neither run surfaces an error. -/
theorem c4_parse_failures_skipped :
    (∀ cfg now fileName lines size agg,
      analyzeFileE cfg now fileName lines size agg =
        Except.ok (analyzeFile cfg now fileName lines size agg) ∧
      (analyzeFile cfg now fileName lines size agg).entries =
        agg.entries ++ lines.filterMap (perLine cfg now fileName)) ∧
    perLine cfgScenario nowScenario (("one.log").toList) badLine = none ∧
    (analyzeFile cfgScenario nowScenario (("two.log").toList) fileBLines 231
      (analyzeFile cfgScenario nowScenario (("one.log").toList) fileALines 226
        newAgg)).entries.length = 6 ∧
    analyzeFileE cfgScenario nowScenario (("one.log").toList) fileALines 226 newAgg =
      Except.ok (analyzeFile cfgScenario nowScenario (("one.log").toList) fileALines 226 newAgg) ∧
    analyzeFileE cfgScenario nowScenario (("two.log").toList) fileBLines 231
      (analyzeFile cfgScenario nowScenario (("one.log").toList) fileALines 226 newAgg) =
      Except.ok (analyzeFile cfgScenario nowScenario (("two.log").toList) fileBLines 231
        (analyzeFile cfgScenario nowScenario (("one.log").toList) fileALines 226 newAgg)) := by
  refine ⟨?_, ?_, ?_, rfl, rfl⟩
  · intro cfg now fileName lines size agg
    exact ⟨rfl, analyzeFile_entries cfg now fileName lines size agg⟩
  · decide
  · decide

/-! ## Interleaving lemmas for C5 -/

lemma flatten_set_perm {α : Type} (ls : List (List α)) (i : Nat) (x : α)
    (xs : List α) (h : ls[i]? = some (x :: xs)) :
    List.Perm ls.flatten (x :: (ls.set i xs).flatten) := by
  induction ls generalizing i with
  | nil => simp at h
  | cons hd tl ih =>
    cases i with
    | zero =>
      simp only [List.getElem?_cons_zero, Option.some.injEq] at h
      subst h
      simp only [List.set_cons_zero, List.flatten_cons, List.cons_append]
      exact List.Perm.refl _
    | succ i =>
      simp only [List.getElem?_cons_succ] at h
      have hp := ih i h
      have h1 : List.Perm (hd ++ tl.flatten)
          (hd ++ (x :: (tl.set i xs).flatten)) := List.Perm.append_left hd hp
      have h2 : List.Perm (hd ++ (x :: (tl.set i xs).flatten))
          (x :: (hd ++ (tl.set i xs).flatten)) := List.perm_middle
      simpa using h1.trans h2

lemma interleave_perm {α : Type} {ls : List (List α)} {out : List α}
    (h : Interleave ls out) : List.Perm out ls.flatten := by
  induction h with
  | nil ls hall =>
    have hz : ls.flatten = [] := List.flatten_eq_nil_iff.mpr hall
    rw [hz]
  | cons ls i x xs out hget htail ih =>
    have hp := flatten_set_perm ls i x xs hget
    exact (ih.cons x).trans hp.symm

lemma interleave_cons_nil {α : Type} {ls : List (List α)} {out : List α}
    (h : Interleave ls out) : Interleave (([] : List α) :: ls) out := by
  induction h with
  | nil ls hall =>
    refine .nil _ ?_
    intro l hl
    rcases List.mem_cons.mp hl with rfl | hl
    · rfl
    · exact hall l hl
  | cons ls i x xs out hget htail ih =>
    exact .cons _ (i + 1) x xs _ (by simpa using hget) ih

lemma interleave_self_flatten {α : Type} :
    ∀ ls : List (List α), Interleave ls ls.flatten := by
  intro ls
  induction ls with
  | nil => exact .nil [] (by simp)
  | cons hd tl ih =>
    induction hd with
    | nil => simpa using interleave_cons_nil ih
    | cons c hd' ihh =>
      exact .cons _ 0 c hd' _ (by simp) ihh

lemma interleave_concat_nil {α : Type} {ls : List (List α)} {out : List α}
    (h : Interleave ls out) : Interleave (ls ++ [([] : List α)]) out := by
  induction h with
  | nil ls hall =>
    refine .nil _ ?_
    intro l hl
    rcases List.mem_append.mp hl with hl | hl
    · exact hall l hl
    · simpa using hl
  | cons ls i x xs out hget htail ih =>
    have hlt : i < ls.length := by
      by_contra hge
      rw [List.getElem?_eq_none (Nat.le_of_not_lt hge)] at hget
      cases hget
    refine .cons _ i x xs _ ?_ ?_
    · rw [List.getElem?_append_left hlt]
      exact hget
    · rw [List.set_append_left i xs hlt]
      exact ih

lemma interleave_two_swap {α : Type} (l₁ l₂ : List α) :
    Interleave [l₁, l₂] (l₂ ++ l₁) := by
  induction l₂ with
  | nil =>
    have h := interleave_concat_nil (interleave_self_flatten [l₁])
    simpa using h
  | cons c l₂ ih =>
    exact .cons _ 1 c l₂ _ rfl ih

/-- C5: with a fixed set of input files, any two executions of the worker pool
— any worker count, any schedule: each feeds the aggregator some interleaving
of the per-file `AddBatch` traces — produce identical total, per-level, and
per-source counts.  Only scheduling (hence wall-clock duration) varies. -/
theorem c5_worker_count_invariance (cfg : Config) (now : DateTime)
    (files : List (Str × List Str)) (tr₁ tr₂ : List (List LogEntry))
    (h₁ : Interleave (files.map (fun f => fileBatchTrace cfg now f.1 f.2)) tr₁)
    (h₂ : Interleave (files.map (fun f => fileBatchTrace cfg now f.1 f.2)) tr₂) :
    (runBatches tr₁).stats.totalEntries = (runBatches tr₂).stats.totalEntries ∧
    (∀ l, (runBatches tr₁).stats.levelCounts l =
      (runBatches tr₂).stats.levelCounts l) ∧
    (∀ src, (runBatches tr₁).stats.sourceCounts src =
      (runBatches tr₂).stats.sourceCounts src) := by
  have hp : List.Perm tr₁.flatten tr₂.flatten :=
    ((interleave_perm h₁).trans (interleave_perm h₂).symm).flatten
  have hs : ∀ tr : List (List LogEntry),
      (runBatches tr).stats = tr.flatten.foldl addEntry newStats := by
    intro tr
    rw [runBatches_flatten, addBatch_stats]
    rfl
  refine ⟨?_, ?_, ?_⟩
  · rw [hs, hs, statsFold_total, statsFold_total, hp.length_eq]
  · intro l
    rw [hs, hs, statsFold_level, statsFold_level, hp.countP_eq]
  · intro src
    rw [hs, hs, statsFold_source, statsFold_source, hp.countP_eq]

/-- Witness for C5 at two concrete one-line files: the one-worker schedule and
the reversed two-worker schedule are both interleavings of the per-file batch
traces, and applying the theorem yields equal counts. -/
theorem c5_witness :
    (runBatches ([fileBatchTrace cfgScenario nowScenario (("a.log").toList) [("ERROR: boom").toList],
        fileBatchTrace cfgScenario nowScenario (("b.log").toList) [("INFO ok").toList]]).flatten).stats.totalEntries =
      (runBatches (fileBatchTrace cfgScenario nowScenario (("b.log").toList) [("INFO ok").toList] ++
        fileBatchTrace cfgScenario nowScenario (("a.log").toList) [("ERROR: boom").toList])).stats.totalEntries ∧
    (∀ l, (runBatches ([fileBatchTrace cfgScenario nowScenario (("a.log").toList) [("ERROR: boom").toList],
        fileBatchTrace cfgScenario nowScenario (("b.log").toList) [("INFO ok").toList]]).flatten).stats.levelCounts l =
      (runBatches (fileBatchTrace cfgScenario nowScenario (("b.log").toList) [("INFO ok").toList] ++
        fileBatchTrace cfgScenario nowScenario (("a.log").toList) [("ERROR: boom").toList])).stats.levelCounts l) ∧
    (∀ src, (runBatches ([fileBatchTrace cfgScenario nowScenario (("a.log").toList) [("ERROR: boom").toList],
        fileBatchTrace cfgScenario nowScenario (("b.log").toList) [("INFO ok").toList]]).flatten).stats.sourceCounts src =
      (runBatches (fileBatchTrace cfgScenario nowScenario (("b.log").toList) [("INFO ok").toList] ++
        fileBatchTrace cfgScenario nowScenario (("a.log").toList) [("ERROR: boom").toList])).stats.sourceCounts src) := by
  exact c5_worker_count_invariance cfgScenario nowScenario
    [((("a.log").toList), [("ERROR: boom").toList]),
     ((("b.log").toList), [("INFO ok").toList])]
    _ _
    (interleave_self_flatten _)
    (interleave_two_swap _ _)

/-! ## Stable-sort lemmas for C3 -/

lemma insertTs_perm (e : LogEntry) (l : List LogEntry) :
    List.Perm (insertTs e l) (e :: l) := by
  induction l with
  | nil => exact .refl _
  | cons x xs ih =>
    unfold insertTs
    by_cases h : entryLt x e = true
    · rw [if_pos h]
      exact (ih.cons x).trans (List.Perm.swap e x xs)
    · rw [if_neg h]

lemma insertTs_sorted (e : LogEntry) (l : List LogEntry)
    (h : sortedByTs l) : sortedByTs (insertTs e l) := by
  induction l with
  | nil => simp [insertTs, sortedByTs]
  | cons x xs ih =>
    have h' := h
    rw [sortedByTs, List.pairwise_cons] at h'
    obtain ⟨hx, hxs⟩ := h'
    unfold insertTs
    by_cases hc : entryLt x e = true
    · rw [if_pos hc]
      rw [sortedByTs, List.pairwise_cons]
      refine ⟨?_, ih hxs⟩
      intro z hz
      have hz' := (insertTs_perm e xs).mem_iff.mp hz
      rcases List.mem_cons.mp hz' with rfl | hz''
      · exact dtLt_asymm hc
      · exact hx z hz''
    · rw [if_neg hc]
      rw [sortedByTs, List.pairwise_cons]
      refine ⟨?_, h⟩
      intro z hz
      rcases List.mem_cons.mp hz with rfl | hz'
      · simpa using hc
      · exact dtNotLt_trans (by simpa using hc) (hx z hz')

lemma stableSortByTs_perm (l : List LogEntry) :
    List.Perm (stableSortByTs l) l := by
  induction l with
  | nil => exact .refl _
  | cons e xs ih =>
    exact (insertTs_perm e (stableSortByTs xs)).trans (ih.cons e)

lemma stableSortByTs_sorted (l : List LogEntry) :
    sortedByTs (stableSortByTs l) := by
  induction l with
  | nil => simp [stableSortByTs, sortedByTs]
  | cons e xs ih =>
    exact insertTs_sorted e _ ih

/-- C3 counterexample: `SortByTime` delegates to Go's `sort.Slice`, whose
contract (`sortSliceSpec`) does not guarantee stability.  For two held entries
with equal timestamps, the reversed order is a sorted permutation the call is
allowed to (and, at scale, does) return, yet it differs from the stable sort
(which retains the original tie order) — so the sort is not stable, and
re-sorting need not reproduce the same sequence. -/
theorem c3_counterexample :
    (LogEntry.mk ⟨2024, 1, 1, 0, 0, 0⟩ LogLevel.INFO (("a").toList) (("s").toList) (("ra").toList)).timestamp =
      (LogEntry.mk ⟨2024, 1, 1, 0, 0, 0⟩ LogLevel.ERROR (("b").toList) (("s").toList) (("rb").toList)).timestamp ∧
    sortByTimeRel
      (Agg.mk [LogEntry.mk ⟨2024, 1, 1, 0, 0, 0⟩ LogLevel.INFO (("a").toList) (("s").toList) (("ra").toList),
               LogEntry.mk ⟨2024, 1, 1, 0, 0, 0⟩ LogLevel.ERROR (("b").toList) (("s").toList) (("rb").toList)] newStats)
      (Agg.mk [LogEntry.mk ⟨2024, 1, 1, 0, 0, 0⟩ LogLevel.ERROR (("b").toList) (("s").toList) (("rb").toList),
               LogEntry.mk ⟨2024, 1, 1, 0, 0, 0⟩ LogLevel.INFO (("a").toList) (("s").toList) (("ra").toList)] newStats) ∧
    (Agg.mk [LogEntry.mk ⟨2024, 1, 1, 0, 0, 0⟩ LogLevel.ERROR (("b").toList) (("s").toList) (("rb").toList),
             LogEntry.mk ⟨2024, 1, 1, 0, 0, 0⟩ LogLevel.INFO (("a").toList) (("s").toList) (("ra").toList)] newStats).entries ≠
      stableSortByTs
        (Agg.mk [LogEntry.mk ⟨2024, 1, 1, 0, 0, 0⟩ LogLevel.INFO (("a").toList) (("s").toList) (("ra").toList),
                 LogEntry.mk ⟨2024, 1, 1, 0, 0, 0⟩ LogLevel.ERROR (("b").toList) (("s").toList) (("rb").toList)] newStats).entries := by
  refine ⟨rfl, ⟨rfl, ?_, ?_⟩, ?_⟩
  · decide
  · decide
  · decide

/-- C3 amended: `SortByTime` replaces the held entries by some permutation
that is non-decreasing by timestamp, leaving the statistics untouched; such a
rearrangement always exists (the stable sort realises the contract), and
re-sorting again yields a non-decreasing permutation of the original entries —
but entries with equal timestamps may appear in any order (the sort is not
guaranteed stable) and the re-sorted sequence need not be identical. -/
theorem c3_amended :
    (∀ a : Agg, sortByTimeRel a (Agg.mk (stableSortByTs a.entries) a.stats)) ∧
    (∀ a a' : Agg, sortByTimeRel a a' →
      List.Perm a'.entries a.entries ∧ sortedByTs a'.entries ∧ a'.stats = a.stats) ∧
    (∀ a a' a'' : Agg, sortByTimeRel a a' → sortByTimeRel a' a'' →
      List.Perm a''.entries a.entries ∧ sortedByTs a''.entries) := by
  refine ⟨?_, ?_, ?_⟩
  · intro a
    exact ⟨rfl, stableSortByTs_perm _, stableSortByTs_sorted _⟩
  · intro a a' h
    exact ⟨h.2.1, h.2.2, h.1⟩
  · intro a a' a'' h h'
    exact ⟨h'.2.1.trans h.2.1, h'.2.2⟩

/-- Witness for C3 at a concrete two-entry aggregator: the stable sort
realises the sorting relation, and applying the theorem to that concrete
sorting step (and to a repeated sort) yields sorted permutations. -/
theorem c3_witness :
    List.Perm (Agg.mk (stableSortByTs
        [LogEntry.mk ⟨2025, 3, 4, 5, 6, 7⟩ LogLevel.WARN (("w").toList) (("s").toList) (("rw").toList),
         LogEntry.mk ⟨2023, 1, 1, 0, 0, 0⟩ LogLevel.INFO (("i").toList) (("s").toList) (("ri").toList)])
        newStats).entries
      [LogEntry.mk ⟨2025, 3, 4, 5, 6, 7⟩ LogLevel.WARN (("w").toList) (("s").toList) (("rw").toList),
       LogEntry.mk ⟨2023, 1, 1, 0, 0, 0⟩ LogLevel.INFO (("i").toList) (("s").toList) (("ri").toList)] ∧
    sortedByTs (Agg.mk (stableSortByTs
        [LogEntry.mk ⟨2025, 3, 4, 5, 6, 7⟩ LogLevel.WARN (("w").toList) (("s").toList) (("rw").toList),
         LogEntry.mk ⟨2023, 1, 1, 0, 0, 0⟩ LogLevel.INFO (("i").toList) (("s").toList) (("ri").toList)])
        newStats).entries ∧
    (Agg.mk (stableSortByTs
        [LogEntry.mk ⟨2025, 3, 4, 5, 6, 7⟩ LogLevel.WARN (("w").toList) (("s").toList) (("rw").toList),
         LogEntry.mk ⟨2023, 1, 1, 0, 0, 0⟩ LogLevel.INFO (("i").toList) (("s").toList) (("ri").toList)])
        newStats).stats =
      (Agg.mk [LogEntry.mk ⟨2025, 3, 4, 5, 6, 7⟩ LogLevel.WARN (("w").toList) (("s").toList) (("rw").toList),
               LogEntry.mk ⟨2023, 1, 1, 0, 0, 0⟩ LogLevel.INFO (("i").toList) (("s").toList) (("ri").toList)] newStats).stats := by
  exact c3_amended.2.1
    (Agg.mk [LogEntry.mk ⟨2025, 3, 4, 5, 6, 7⟩ LogLevel.WARN (("w").toList) (("s").toList) (("rw").toList),
             LogEntry.mk ⟨2023, 1, 1, 0, 0, 0⟩ LogLevel.INFO (("i").toList) (("s").toList) (("ri").toList)] newStats)
    _
    (c3_amended.1
      (Agg.mk [LogEntry.mk ⟨2025, 3, 4, 5, 6, 7⟩ LogLevel.WARN (("w").toList) (("s").toList) (("rw").toList),
               LogEntry.mk ⟨2023, 1, 1, 0, 0, 0⟩ LogLevel.INFO (("i").toList) (("s").toList) (("ri").toList)] newStats))

end LogAn
